import Mathlib

/-!
# Shallow embedding of the kubefuzz watch-engine core

This file embeds the health classifier, item helpers and the per-kind
watch task / global-batch coordinator of the kubefuzz repository
(`src/items.rs`, `src/k8s/resources.rs`, `src/main.rs`) and proves the
testable properties stated in the specification.

Rust `&str` values are modelled as lists of Unicode scalar values
(`List Char`); byte-level operations (`str::len`, `is_char_boundary`,
slicing) are expressed through `Char.utf8Size`.  Fallible operations
(string slicing, which panics off a char boundary) return `Option`.
-/

/-- Rust string slices, modelled as lists of Unicode scalar values. -/
abbrev Str := List Char

/-- Rust `str::len`: the length of the UTF-8 encoding in bytes. -/
def utf8Len (s : Str) : Nat := (s.map Char.utf8Size).sum

/-! ## `src/items.rs` — name truncation -/

/-- Rust `str::is_char_boundary`: `i` is 0, the total byte length, or the
byte offset of the start of a character. -/
def is_char_boundary : Str → Nat → Bool
  | _, 0 => true
  | [], _ + 1 => false
  | c :: rest, i + 1 =>
    if c.utf8Size ≤ i + 1 then is_char_boundary rest (i + 1 - c.utf8Size) else false

/-- Rust slicing `&name[..i]`: the prefix of `s` whose UTF-8 encoding is
exactly `i` bytes long, or `none` (a panic) when `i` is not a char
boundary. -/
def sliceTo : Str → Nat → Option Str
  | _, 0 => some []
  | [], _ + 1 => none
  | c :: rest, i + 1 =>
    if c.utf8Size ≤ i + 1 then (sliceTo rest (i + 1 - c.utf8Size)).map (c :: ·) else none

/-- The `while !name.is_char_boundary(end) && end > 0 { end -= 1 }` loop of
`truncate_name`: decrease `e` until it is a char boundary of `s` or 0. -/
def adjustEnd (s : Str) : Nat → Nat
  | 0 => 0
  | e + 1 => if is_char_boundary s (e + 1) then e + 1 else adjustEnd s e

/-- `truncate_name` from `src/items.rs`: return `name` unchanged when its
byte length is at most `max_chars`, otherwise cut at a char boundary at or
below `max_chars` and append `…`.  The slicing step is fallible (`Option`)
exactly where the Rust indexing could panic. -/
def truncate_name (name : Str) (max_chars : Nat) : Option Str :=
  if utf8Len name ≤ max_chars then some name
  else (sliceTo name (adjustEnd name max_chars)).map (· ++ [ '…' ])

/-! ## `src/items.rs` — status health classification -/

/-- Health category for a resource status string (`StatusHealth`). -/
inductive StatusHealth where
  | Critical
  | Warning
  | Healthy
  | Unknown
deriving DecidableEq

/-- Rust `str::splitn(2, '/')`: the piece before the first `/` and
everything after it, or the whole string when no `/` occurs. -/
def splitn2Slash (s : Str) : List Str :=
  if '/' ∈ s then [s.takeWhile (fun c => c != '/'), (s.dropWhile (fun c => c != '/')).tail]
  else [s]

/-- `StatusHealth::classify`, translated guard by guard in source order. -/
def StatusHealth.classify (s : Str) : StatusHealth :=
  if s = "Failed".toList ∨ s = "Error".toList ∨ s = "OOMKilled".toList ∨
      s = "NotReady".toList ∨ s = "Lost".toList ∨ s = "Evicted".toList ∨
      s = "BackOff".toList then .Critical
  else if "CrashLoop".toList <+: s ∨ "ErrImage".toList <+: s ∨ "ImagePull".toList <+: s ∨
      "Init:Error".toList <+: s ∨ "Init:ErrImage".toList <+: s ∨
      "Init:ImagePull".toList <+: s ∨ "Failed(".toList <+: s then .Critical
  else if s = "Pending".toList ∨ s = "Terminating".toList ∨
      s = "ContainerCreating".toList ∨ s = "Unknown".toList then .Warning
  else if "Init:".toList <+: s then .Warning
  else if s = "[DELETED]".toList then .Unknown
  else if s = "Running".toList ∨ s = "Active".toList ∨ s = "Bound".toList ∨
      s = "Complete".toList ∨ s = "Succeeded".toList ∨ s = "Ready".toList ∨
      s = "Scheduled".toList ∨ s = "ClusterIP".toList ∨ s = "NodePort".toList ∨
      s = "LoadBalancer".toList then .Healthy
  else if "Active(".toList <+: s then .Healthy
  else if '/' ∈ s then
    match splitn2Slash s with
    | [a, b] => if a = b then .Healthy else .Warning
    | _ => .Warning
  else .Healthy

/-- `StatusHealth::priority`: 0 = critical, 1 = warning/unknown, 2 = healthy. -/
def StatusHealth.priority : StatusHealth → Nat
  | .Critical => 0
  | .Warning => 1
  | .Unknown => 1
  | .Healthy => 2

/-- Every guard of `classify` that precedes the ratio branch, in source
order; when none of these holds, classification falls through to the
`s.contains('/')` ratio rule. -/
def preRatioRule (s : Str) : Prop :=
  (s = "Failed".toList ∨ s = "Error".toList ∨ s = "OOMKilled".toList ∨
    s = "NotReady".toList ∨ s = "Lost".toList ∨ s = "Evicted".toList ∨
    s = "BackOff".toList) ∨
  ("CrashLoop".toList <+: s ∨ "ErrImage".toList <+: s ∨ "ImagePull".toList <+: s ∨
    "Init:Error".toList <+: s ∨ "Init:ErrImage".toList <+: s ∨
    "Init:ImagePull".toList <+: s ∨ "Failed(".toList <+: s) ∨
  (s = "Pending".toList ∨ s = "Terminating".toList ∨
    s = "ContainerCreating".toList ∨ s = "Unknown".toList) ∨
  ("Init:".toList <+: s) ∨
  (s = "[DELETED]".toList) ∨
  (s = "Running".toList ∨ s = "Active".toList ∨ s = "Bound".toList ∨
    s = "Complete".toList ∨ s = "Succeeded".toList ∨ s = "Ready".toList ∨
    s = "Scheduled".toList ∨ s = "ClusterIP".toList ∨ s = "NodePort".toList ∨
    s = "LoadBalancer".toList) ∨
  ("Active(".toList <+: s)

instance (s : Str) : Decidable (preRatioRule s) := by
  unfold preRatioRule; infer_instance

/-! ## `src/items.rs` — resource kinds -/

/-- `ResourceKind`: the closed enumeration of watched kinds as declared in
`src/items.rs` (13 variants; the source has no PersistentVolume variant). -/
inductive ResourceKind where
  | Pod
  | Service
  | Deployment
  | StatefulSet
  | DaemonSet
  | ConfigMap
  | Secret
  | Ingress
  | Node
  | Namespace
  | PersistentVolumeClaim
  | Job
  | CronJob
deriving DecidableEq

/-- `ResourceKind::as_str`. -/
def ResourceKind.as_str : ResourceKind → Str
  | .Pod => "pod".toList
  | .Service => "svc".toList
  | .Deployment => "deploy".toList
  | .StatefulSet => "sts".toList
  | .DaemonSet => "ds".toList
  | .ConfigMap => "cm".toList
  | .Secret => "secret".toList
  | .Ingress => "ing".toList
  | .Node => "node".toList
  | .Namespace => "ns".toList
  | .PersistentVolumeClaim => "pvc".toList
  | .Job => "job".toList
  | .CronJob => "cronjob".toList

/-- `ALL_KINDS` from `src/k8s/resources.rs`, in source order. -/
def ALL_KINDS : List ResourceKind :=
  [.Pod, .Deployment, .StatefulSet, .DaemonSet, .Service, .Ingress, .Job,
   .CronJob, .ConfigMap, .Secret, .PersistentVolumeClaim, .Namespace, .Node]

/-- The namespace argument handed to each kind's watch task by the
`watch_resources` dispatch: Node and Namespace are watched with
`Api::all` (no namespace) regardless of any configured namespace; every
other kind receives the configured namespace. -/
def watchNamespaceArg (k : ResourceKind) (ns : Option Str) : Option Str :=
  match k with
  | .Node => none
  | .Namespace => none
  | _ => ns

/-- `status_priority` from `src/k8s/resources.rs`. -/
def status_priority (status : Str) : Nat := (StatusHealth.classify status).priority

/-! ## `src/k8s/resources.rs` — pod status extractor -/

/-- `ContainerStateWaiting` (the fields `pod_status` reads). -/
structure ContainerStateWaiting where
  reason : Option Str
deriving DecidableEq

/-- `ContainerStateTerminated` (the fields `pod_status` reads). -/
structure ContainerStateTerminated where
  exit_code : Int
  reason : Option Str
deriving DecidableEq

/-- `ContainerState`. -/
structure ContainerState where
  waiting : Option ContainerStateWaiting
  terminated : Option ContainerStateTerminated
deriving DecidableEq

/-- `ContainerStatus` (the field `pod_status` reads). -/
structure ContainerStatus where
  state : Option ContainerState
deriving DecidableEq

/-- The pod `status` subobject as read by `pod_status`. -/
structure PodStatusData where
  container_statuses : Option (List ContainerStatus)
  init_container_statuses : Option (List ContainerStatus)
  phase : Option Str
deriving DecidableEq

/-- A pod as read by `pod_status`: only the presence of the deletion
timestamp matters, so it is modelled as `Option Unit`. -/
structure Pod where
  deletion_timestamp : Option Unit
  status : Option PodStatusData
deriving DecidableEq

/-- The `for cs in css` loop of `pod_status`, container by container in
order: a waiting reason other than ContainerCreating/PodInitializing is
returned; otherwise the same container's terminated state with nonzero
exit code returns its reason or "Error"; otherwise the next container. -/
def containerScan : List ContainerStatus → Option Str
  | [] => none
  | cs :: rest =>
    match cs.state with
    | none => containerScan rest
    | some st =>
      match
        (match st.waiting with
         | some w =>
           match w.reason with
           | some reason =>
             if reason ≠ "ContainerCreating".toList ∧ reason ≠ "PodInitializing".toList
             then some reason else none
           | none => none
         | none => none)
      with
      | some r => some r
      | none =>
        match st.terminated with
        | some t =>
          if t.exit_code ≠ 0 then some (t.reason.getD "Error".toList)
          else containerScan rest
        | none => containerScan rest

/-- The first `for cs in ics` loop of `pod_status`: the first explicit init
container waiting reason, rendered "Init:reason". -/
def initWaitingScan : List ContainerStatus → Option Str
  | [] => none
  | cs :: rest =>
    match cs.state with
    | some st =>
      match st.waiting with
      | some w =>
        match w.reason with
        | some reason => some ("Init:".toList ++ reason)
        | none => initWaitingScan rest
      | none => initWaitingScan rest
    | none => initWaitingScan rest

/-- The `done` count of `pod_status`: init containers whose state has a
terminated record with exit code 0. -/
def initDoneCount (ics : List ContainerStatus) : Nat :=
  (ics.filter fun cs =>
    match cs.state with
    | some st =>
      match st.terminated with
      | some t => decide (t.exit_code = 0)
      | none => false
    | none => false).length

/-- Decimal rendering of a count, as Rust `format!` does. -/
def natStr (n : Nat) : Str := (Nat.repr n).toList

/-- The `if let Some(css) = &status.container_statuses` block of
`pod_status`: run the container loop when the list is present. -/
def containerClauseCode (css : Option (List ContainerStatus)) : Option Str :=
  match css with
  | some l => containerScan l
  | none => none

/-- The `if let Some(ics) = &status.init_container_statuses` block of
`pod_status`: the first explicit waiting reason, else `Init:done/total`
while `done < total`. -/
def initClauseCode (ics : Option (List ContainerStatus)) : Option Str :=
  match ics with
  | some l =>
    match initWaitingScan l with
    | some r => some r
    | none =>
      let total := l.length
      let done := initDoneCount l
      if done < total then
        some ("Init:".toList ++ natStr done ++ "/".toList ++ natStr total)
      else none
  | none => none

/-- `pod_status` from `src/k8s/resources.rs`, translated clause by clause
(the two statement blocks are the named helpers above). -/
def pod_status (pod : Pod) : Str :=
  if pod.deletion_timestamp.isSome then "Terminating".toList
  else
    match pod.status with
    | none => "Unknown".toList
    | some status =>
      match containerClauseCode status.container_statuses with
      | some r => r
      | none =>
        match initClauseCode status.init_container_statuses with
        | some r => r
        | none => status.phase.getD "Unknown".toList

/-! Spec-side reformulations of the pod extractor, used to settle claim C7.
They are written from the claim's words (rule combinators over the
container lists) rather than from the source's loop structure. -/

/-- One container's waiting rule as the claim words it: its waiting-state
reason, verbatim, unless that reason is ContainerCreating/PodInitializing. -/
def waitingRuleSpec (cs : ContainerStatus) : Option Str :=
  match (cs.state.bind (fun st => st.waiting)).bind (fun w => w.reason) with
  | some reason =>
    if reason ≠ "ContainerCreating".toList ∧ reason ≠ "PodInitializing".toList
    then some reason else none
  | none => none

/-- One container's terminated rule as the claim words it: for a
terminated state with nonzero exit code, its reason or "Error". -/
def terminatedRuleSpec (cs : ContainerStatus) : Option Str :=
  match cs.state.bind (fun st => st.terminated) with
  | some t => if t.exit_code ≠ 0 then some (t.reason.getD "Error".toList) else none
  | none => none

/-- One init container's waiting rule as the claim words it:
"Init:reason" for an explicit waiting reason. -/
def initWaitingRuleSpec (cs : ContainerStatus) : Option Str :=
  ((cs.state.bind (fun st => st.waiting)).bind (fun w => w.reason)).map
    (fun reason => "Init:".toList ++ reason)

/-- `done` as the claim words it: the number of init containers
terminated with exit code 0. -/
def initDoneCountSpec (ics : List ContainerStatus) : Nat :=
  ics.countP fun cs =>
    match cs.state.bind (fun st => st.terminated) with
    | some t => decide (t.exit_code = 0)
    | none => false

/-- The init-container clause shared by both spec readings. -/
def initClauseSpec (ics : Option (List ContainerStatus)) : Option Str :=
  (( ics.getD []).findSome? initWaitingRuleSpec).orElse fun _ =>
    if initDoneCountSpec (ics.getD []) < (ics.getD []).length then
      some ("Init:".toList ++ natStr (initDoneCountSpec (ics.getD [])) ++ "/".toList ++
        natStr (ics.getD []).length)
    else none

/-- The pod extractor as the AMENDED claim C7 reads: containers are
scanned in order, and for each container its waiting rule is consulted
before its terminated rule; the first hit wins. -/
def pod_status_spec (pod : Pod) : Str :=
  if pod.deletion_timestamp.isSome then "Terminating".toList
  else
    match pod.status with
    | none => "Unknown".toList
    | some status =>
      let css := status.container_statuses.getD []
      (((css.findSome? fun cs => (waitingRuleSpec cs).orElse fun _ => terminatedRuleSpec cs).orElse
          fun _ => initClauseSpec status.init_container_statuses).getD
        (status.phase.getD "Unknown".toList))

/-- The pod extractor as claim C7 LITERALLY reads: every container's
waiting rule is consulted before any container's terminated rule. -/
def pod_status_claim (pod : Pod) : Str :=
  if pod.deletion_timestamp.isSome then "Terminating".toList
  else
    match pod.status with
    | none => "Unknown".toList
    | some status =>
      let css := status.container_statuses.getD []
      ((((css.findSome? waitingRuleSpec).orElse
            fun _ => css.findSome? terminatedRuleSpec).orElse
          fun _ => initClauseSpec status.init_container_statuses).getD
        (status.phase.getD "Unknown".toList))

/-! ## `src/k8s/resources.rs` — watch task and initial-batch coordinator

The concurrency model: one `watch_typed` loop per watch task, all sharing
the coordinator triple (locked buffer, atomic counter, one-shot signal).
A run is an interleaved schedule of per-task events; lock-protected
updates are atomic steps.  The coordinator task performs one select
(completion signal vs. 8-second timeout) and then one locked
sort-and-drain, so it contributes exactly one step, placed after the
modelled schedule. -/

/-- A `K8sItem` (`src/items.rs`): one observed object. -/
structure K8sItem where
  kind : ResourceKind
  nspace : Str
  name : Str
  status : Str
  age : Str
  context : Str
deriving DecidableEq

/-- The comparator realized by `sort_by_key(|item| Reverse(status_priority(..)))`
in both batch sorts: descending numeric priority, i.e. Healthy (2) first,
Critical (0) last — what the spec calls "ascending health priority
(Healthy first, Critical last)". -/
def prioLe (a b : K8sItem) : Bool :=
  decide (status_priority b.status ≤ status_priority a.status)

/-- The stable sort applied to every initial batch. -/
def sortByPriorityDesc (l : List K8sItem) : List K8sItem := l.mergeSort prioLe

/-- Watcher lifecycle events delivered to one watch task.  Events carry
the already-constructed item (`make_item` applied to the raw object);
`delete` still forces the `[DELETED]` status, as `make_item` does on the
deleted flag. -/
inductive WEvent where
  | init
  | initApply (item : K8sItem)
  | initDone
  | apply (item : K8sItem)
  | delete (item : K8sItem)
  | streamError
deriving DecidableEq

/-- Local state of one `watch_typed` loop. -/
structure TaskState where
  init_batch : List K8sItem
  in_init : Bool
  first_init_done : Bool
deriving DecidableEq

/-- Local state at the top of `watch_typed`. -/
def TaskState.initial : TaskState := ⟨[], true, false⟩

/-- The shared coordinator triple of `watch_resources`: the locked
`global_init` buffer, the atomic `done_count`, and the one-shot
notification (modelled as the flag `notified`). -/
structure CoordState where
  global_init : List K8sItem
  done_count : Nat
  notified : Bool
deriving DecidableEq

/-- Shared state as constructed in `watch_resources`. -/
def CoordState.initial : CoordState := ⟨[], 0, false⟩

/-- One iteration of the `watch_typed` event loop: from the task's local
state, the shared state and one event, produce the new local state, the
new shared state, and the batches this task sends on the output channel.
`total` is `total_watchers`. -/
def watchStep (total : Nat) (ts : TaskState) (cs : CoordState) :
    WEvent → TaskState × CoordState × List (List K8sItem)
  | .init => ({ ts with init_batch := [], in_init := true }, cs, [])
  | .initApply item =>
    if ts.in_init then ({ ts with init_batch := ts.init_batch ++ [item] }, cs, [])
    else (ts, cs, [[item]])
  | .initDone =>
    if ts.first_init_done then
      let sorted := sortByPriorityDesc ts.init_batch
      ({ ts with init_batch := [], in_init := false }, cs,
        if sorted.isEmpty then [] else [sorted])
    else
      ({ ts with init_batch := [], in_init := false, first_init_done := true },
        { global_init := cs.global_init ++ ts.init_batch,
          done_count := cs.done_count + 1,
          notified := cs.notified || decide (total ≤ cs.done_count + 1) }, [])
  | .apply item => (ts, cs, [[item]])
  | .delete item => (ts, cs, [[{ item with status := "[DELETED]".toList }]])
  | .streamError => (ts, cs, [])

/-- The coordinator body after its select (signal vs. timeout) resolves:
lock the buffer, sort it, drain it, send it as one batch iff nonempty. -/
def coordinatorFire (cs : CoordState) : CoordState × List (List K8sItem) :=
  let sorted := sortByPriorityDesc cs.global_init
  ({ cs with global_init := [] }, if sorted.isEmpty then [] else [sorted])

/-- Run an interleaved schedule: each entry names the task that takes the
next step and the event it processes.  Accumulates the direct output of
all tasks in channel order. -/
def runSched (total : Nat) {n : Nat} :
    List (Fin n × WEvent) → (Fin n → TaskState) → CoordState → List (List K8sItem) →
    (Fin n → TaskState) × CoordState × List (List K8sItem)
  | [], tss, cs, out => (tss, cs, out)
  | (j, e) :: rest, tss, cs, out =>
    let r := watchStep total (tss j) cs e
    runSched total rest (Function.update tss j r.1) r.2.1 (out ++ r.2.2)

/-- One `watch_resources` invocation with `n` watch tasks
(`total_watchers = n`): process the schedule, then let the coordinator
fire.  Returns (coordinator batches, task direct batches, shared state
just before the fire). -/
def engineRun (n : Nat) (sched : List (Fin n × WEvent)) :
    List (List K8sItem) × List (List K8sItem) × CoordState :=
  let r := runSched n sched (fun _ => TaskState.initial) CoordState.initial []
  ((coordinatorFire r.2.1).2, r.2.2, r.2.1)

/-- The subsequence of events a given task processes, in order. -/
def projEvents {n : Nat} (j : Fin n) (sched : List (Fin n × WEvent)) : List WEvent :=
  (sched.filter fun p => decide (p.1 = j)).map Prod.snd

/-- The first-connection trace of one watch stream: `Init`, one
`InitApply` per pre-existing object, then `InitDone`. -/
def canonicalTrace (items : List K8sItem) : List WEvent :=
  .init :: (items.map WEvent.initApply ++ [.initDone])

/-- `run_all_contexts` from `src/main.rs`, watch-engine view: one
`watch_resources` invocation — each with its own freshly-constructed
coordinator triple — is spawned per kubeconfig context, over the same
`n` kinds. -/
def run_all_contexts (contexts : List Str) (n : Nat)
    (sched : Str → List (Fin n × WEvent)) :
    List (List (List K8sItem) × List (List K8sItem) × CoordState) :=
  contexts.map fun c => engineRun n (sched c)

/-! ### Per-task progress through the canonical trace -/

/-- How far a task has progressed through its first-connection trace:
not yet connected, buffering after `Init` having seen `k` objects, or
streaming after its first `InitDone`. -/
inductive TaskPos where
  | start
  | buffering (k : Nat)
  | streaming
deriving DecidableEq

/-- The local task state determined by a position. -/
def posState (items : List K8sItem) : TaskPos → TaskState
  | .start => TaskState.initial
  | .buffering k => ⟨items.take k, true, false⟩
  | .streaming => ⟨[], false, true⟩

/-- The events still to be processed from a position. -/
def posRem (items : List K8sItem) : TaskPos → List WEvent
  | .start => canonicalTrace items
  | .buffering k => (items.drop k).map WEvent.initApply ++ [.initDone]
  | .streaming => []

/-- Whether the task has delivered its first `InitDone`. -/
def posDone : TaskPos → Bool
  | .streaming => true
  | _ => false

/-- Positions never index past the item list. -/
def posOK (items : List K8sItem) : TaskPos → Prop
  | .buffering k => k ≤ items.length
  | _ => True

/-- The coordinator-state invariant: the shared buffer holds exactly the
items of the tasks whose first `InitDone` has been processed, the counter
counts those tasks, and the signal has fired iff the counter has reached
`total` (having been incremented at least once). -/
def CoordInv (total : Nat) {n : Nat} (items : Fin n → List K8sItem)
    (pos : Fin n → TaskPos) (cs : CoordState) : Prop :=
  ((↑cs.global_init : Multiset K8sItem) =
      ∑ j : Fin n, if posDone (pos j) then (↑(items j) : Multiset K8sItem) else 0) ∧
  (cs.done_count = ∑ j : Fin n, if posDone (pos j) then 1 else 0) ∧
  (cs.notified = true ↔ total ≤ cs.done_count ∧ 1 ≤ cs.done_count)

/-! ### List and sum helper lemmas -/

lemma take_drop_step {α : Type _} :
    ∀ (l : List α) (k : Nat) (c : α) (r : List α),
      l.drop k = c :: r → l.take (k + 1) = l.take k ++ [c] ∧ l.drop (k + 1) = r := by
  intro l
  induction l with
  | nil => intro k c r h; simp at h
  | cons x xs ihx =>
    intro k c r h
    cases k with
    | zero =>
      simp at h
      obtain ⟨rfl, rfl⟩ := h
      simp
    | succ k =>
      simp only [List.drop_succ_cons] at h
      obtain ⟨h1, h2⟩ := ihx k c r h
      simp only [List.take_succ_cons, List.drop_succ_cons, h1, h2]
      simp

lemma projEvents_cons_self {n : Nat} (j : Fin n) (e : WEvent)
    (rest : List (Fin n × WEvent)) :
    projEvents j ((j, e) :: rest) = e :: projEvents j rest := by
  simp [projEvents]

lemma projEvents_cons_ne {n : Nat} (i j : Fin n) (e : WEvent)
    (rest : List (Fin n × WEvent)) (h : j ≠ i) :
    projEvents i ((j, e) :: rest) = projEvents i rest := by
  simp [projEvents, h]

lemma sum_if_update_done {n : Nat} {M : Type _} [AddCommMonoid M]
    (pos : Fin n → TaskPos) (f : Fin n → M) (j : Fin n) (p : TaskPos)
    (hold : posDone (pos j) = false) (hnew : posDone p = true) :
    (∑ i : Fin n, if posDone (Function.update pos j p i) then f i else 0) =
      f j + ∑ i : Fin n, if posDone (pos i) then f i else 0 := by
  have h1 : (fun i => if posDone (Function.update pos j p i) then f i else 0) =
      Function.update (fun i => if posDone (pos i) then f i else 0) j (f j) := by
    funext i
    by_cases hij : i = j
    · subst hij; simp [hnew]
    · simp [Function.update_noteq hij]
  rw [h1, Finset.sum_update_of_mem (Finset.mem_univ j)]
  congr 1
  rw [Finset.sdiff_singleton_eq_erase]
  exact Finset.sum_erase _ (by simp [hold])

lemma sum_if_update_same {n : Nat} {M : Type _} [AddCommMonoid M]
    (pos : Fin n → TaskPos) (f : Fin n → M) (j : Fin n) (p : TaskPos)
    (hsame : posDone p = posDone (pos j)) :
    (∑ i : Fin n, if posDone (Function.update pos j p i) then f i else 0) =
      ∑ i : Fin n, if posDone (pos i) then f i else 0 := by
  apply Finset.sum_congr rfl
  intro i _
  by_cases hij : i = j
  · subst hij; simp [hsame]
  · simp [Function.update_noteq hij]

lemma watchStep_init (total : Nat) (ts : TaskState) (cs : CoordState) :
    watchStep total ts cs .init =
      (⟨[], true, ts.first_init_done⟩, cs, []) := rfl

lemma watchStep_initApply_buffering (total : Nat) (ts : TaskState) (cs : CoordState)
    (item : K8sItem) (h : ts.in_init = true) :
    watchStep total ts cs (.initApply item) =
      (⟨ts.init_batch ++ [item], ts.in_init, ts.first_init_done⟩, cs, []) := by
  simp [watchStep, h]

lemma watchStep_initDone_first (total : Nat) (ts : TaskState) (cs : CoordState)
    (h : ts.first_init_done = false) :
    watchStep total ts cs .initDone =
      (⟨[], false, true⟩,
        { global_init := cs.global_init ++ ts.init_batch,
          done_count := cs.done_count + 1,
          notified := cs.notified || decide (total ≤ cs.done_count + 1) }, []) := by
  simp [watchStep, h]

lemma runSched_cons (total : Nat) {n : Nat} (j : Fin n) (e : WEvent)
    (rest : List (Fin n × WEvent)) (tss : Fin n → TaskState) (cs : CoordState)
    (out : List (List K8sItem)) :
    runSched total ((j, e) :: rest) tss cs out =
      runSched total rest (Function.update tss j (watchStep total (tss j) cs e).1)
        (watchStep total (tss j) cs e).2.1 (out ++ (watchStep total (tss j) cs e).2.2) := rfl

/-- Main invariant: running any schedule whose per-task projections are
prefixes of the canonical first-connection traces advances every task
along its trace, maintains the coordinator invariant, and produces no
direct output. -/
lemma runSched_inv {n : Nat} (total : Nat) (items : Fin n → List K8sItem) :
    ∀ (sched : List (Fin n × WEvent)) (pos : Fin n → TaskPos) (tss : Fin n → TaskState)
      (cs : CoordState) (out : List (List K8sItem)),
      (∀ j, posOK (items j) (pos j)) →
      (∀ j, tss j = posState (items j) (pos j)) →
      (∀ j, projEvents j sched <+: posRem (items j) (pos j)) →
      CoordInv total items pos cs →
      ∃ pos' : Fin n → TaskPos,
        (∀ j, posOK (items j) (pos' j)) ∧
        (∀ j, posRem (items j) (pos j) = projEvents j sched ++ posRem (items j) (pos' j)) ∧
        (∀ j, (runSched total sched tss cs out).1 j = posState (items j) (pos' j)) ∧
        CoordInv total items pos' (runSched total sched tss cs out).2.1 ∧
        (runSched total sched tss cs out).2.2 = out := by
  intro sched
  induction sched with
  | nil =>
    intro pos tss cs out hOK hts _ hinv
    refine ⟨pos, hOK, ?_, ?_, ?_, rfl⟩
    · intro j; simp [projEvents]
    · intro j; exact hts j
    · exact hinv
  | cons pe rest ih =>
    obtain ⟨j, e⟩ := pe
    intro pos tss cs out hOK hts hpre hinv
    have hpj := hpre j
    rw [projEvents_cons_self] at hpj
    obtain ⟨t, ht⟩ := hpj
    rw [List.cons_append] at ht
    cases hpos : pos j with
    | start =>
      rw [hpos] at ht
      simp only [posRem, canonicalTrace] at ht
      obtain ⟨rfl, hrest⟩ : e = WEvent.init ∧
          projEvents j rest ++ t = (items j).map WEvent.initApply ++ [WEvent.initDone] := by
        have h1 := List.head_eq_of_cons_eq ht
        have h2 := List.tail_eq_of_cons_eq ht
        exact ⟨h1, h2⟩
      rw [runSched_cons, hts j, hpos]
      rw [show watchStep total (posState (items j) TaskPos.start) cs WEvent.init =
        (⟨[], true, false⟩, cs, []) from rfl]
      set pos2 : Fin n → TaskPos := Function.update pos j (.buffering 0) with hpos2
      have hOK2 : ∀ i, posOK (items i) (pos2 i) := by
        intro i
        by_cases hij : i = j
        · subst hij; simp [hpos2, posOK]
        · simpa [hpos2, Function.update_noteq hij] using hOK i
      have hts2 : ∀ i, Function.update tss j (⟨[], true, false⟩ : TaskState) i =
          posState (items i) (pos2 i) := by
        intro i
        by_cases hij : i = j
        · subst hij; simp [hpos2, posState]
        · rw [Function.update_noteq hij, hpos2, Function.update_noteq hij]; exact hts i
      have hpre2 : ∀ i, projEvents i rest <+: posRem (items i) (pos2 i) := by
        intro i
        by_cases hij : i = j
        · subst hij
          simp only [hpos2, Function.update_same, posRem, List.drop_zero]
          exact ⟨t, hrest⟩
        · rw [hpos2, Function.update_noteq hij]
          have := hpre i
          rwa [projEvents_cons_ne i j _ _ (fun hji => hij hji.symm)] at this
      have hinv2 : CoordInv total items pos2 cs := by
        obtain ⟨h1, h2, h3⟩ := hinv
        refine ⟨?_, ?_, h3⟩
        · rw [h1]
          exact (sum_if_update_same pos _ j _ (by simp [hpos, posDone])).symm
        · rw [h2]
          exact (sum_if_update_same pos _ j _ (by simp [hpos, posDone])).symm
      obtain ⟨pos', hOK', hchain', hts', hinv', hout'⟩ :=
        ih pos2 (Function.update tss j ⟨[], true, false⟩) cs (out ++ []) hOK2 hts2 hpre2 hinv2
      refine ⟨pos', hOK', ?_, hts', hinv', by simpa using hout'⟩
      intro i
      by_cases hij : i = j
      · subst hij
        rw [projEvents_cons_self, hpos]
        have hc := hchain' i
        rw [hpos2, Function.update_same] at hc
        rw [show posRem (items i) (TaskPos.buffering 0) =
          (items i).map WEvent.initApply ++ [WEvent.initDone] by simp [posRem]] at hc
        rw [show posRem (items i) TaskPos.start =
          WEvent.init :: ((items i).map WEvent.initApply ++ [WEvent.initDone]) from rfl]
        rw [hc]
        exact (List.cons_append _ _ _).symm
      · rw [projEvents_cons_ne i j _ _ (fun hji => hij hji.symm)]
        have hc := hchain' i
        rw [hpos2, Function.update_noteq hij] at hc
        exact hc
    | buffering k =>
      rw [hpos] at ht
      simp only [posRem] at ht
      cases hd : (items j).drop k with
      | nil =>
        rw [hd] at ht
        simp only [List.map_nil, List.nil_append] at ht
        obtain ⟨rfl, hrest⟩ : e = WEvent.initDone ∧ projEvents j rest ++ t = [] :=
          ⟨List.head_eq_of_cons_eq ht, List.tail_eq_of_cons_eq ht⟩
        obtain ⟨hrnil, htnil⟩ := List.append_eq_nil.mp hrest
        have hklen : (items j).length ≤ k := List.drop_eq_nil_iff.mp hd
        have htake : (items j).take k = items j := List.take_of_length_le hklen
        rw [runSched_cons, hts j, hpos]
        rw [watchStep_initDone_first total _ cs (by simp [posState])]
        simp only [posState, htake]
        set pos2 : Fin n → TaskPos := Function.update pos j .streaming with hpos2
        set cs2 : CoordState :=
          { global_init := cs.global_init ++ items j,
            done_count := cs.done_count + 1,
            notified := cs.notified || decide (total ≤ cs.done_count + 1) } with hcs2
        have hOK2 : ∀ i, posOK (items i) (pos2 i) := by
          intro i
          by_cases hij : i = j
          · subst hij; simp [hpos2, posOK]
          · simpa [hpos2, Function.update_noteq hij] using hOK i
        have hts2 : ∀ i, Function.update tss j (⟨[], false, true⟩ : TaskState) i =
            posState (items i) (pos2 i) := by
          intro i
          by_cases hij : i = j
          · subst hij; simp [hpos2, posState]
          · rw [Function.update_noteq hij, hpos2, Function.update_noteq hij]; exact hts i
        have hpre2 : ∀ i, projEvents i rest <+: posRem (items i) (pos2 i) := by
          intro i
          by_cases hij : i = j
          · subst hij
            rw [hrnil]
            exact List.nil_prefix
          · rw [hpos2, Function.update_noteq hij]
            have := hpre i
            rwa [projEvents_cons_ne i j _ _ (fun hji => hij hji.symm)] at this
        have hinv2 : CoordInv total items pos2 cs2 := by
          obtain ⟨h1, h2, h3⟩ := hinv
          refine ⟨?_, ?_, ?_⟩
          · show (↑(cs.global_init ++ items j) : Multiset K8sItem) = _
            rw [show (↑(cs.global_init ++ items j) : Multiset K8sItem) =
              ↑cs.global_init + ↑(items j) from rfl]
            rw [h1, hpos2,
              sum_if_update_done pos _ j _ (by simp [hpos, posDone]) (by simp [posDone])]
            exact add_comm _ _
          · show cs.done_count + 1 = _
            rw [h2, hpos2,
              sum_if_update_done pos _ j _ (by simp [hpos, posDone]) (by simp [posDone])]
            exact add_comm _ _
          · show (cs.notified || decide (total ≤ cs.done_count + 1)) = true ↔ _
            rw [Bool.or_eq_true, decide_eq_true_iff, h3]
            show _ ↔ total ≤ cs.done_count + 1 ∧ 1 ≤ cs.done_count + 1
            omega
        obtain ⟨pos', hOK', hchain', hts', hinv', hout'⟩ :=
          ih pos2 (Function.update tss j ⟨[], false, true⟩) cs2 (out ++ []) hOK2 hts2 hpre2 hinv2
        refine ⟨pos', hOK', ?_, hts', hinv', by simpa using hout'⟩
        intro i
        by_cases hij : i = j
        · subst hij
          rw [projEvents_cons_self, hpos]
          have hc := hchain' i
          rw [hpos2, Function.update_same] at hc
          rw [show posRem (items i) TaskPos.streaming = [] from rfl] at hc
          obtain ⟨hp0, hr0⟩ := List.append_eq_nil.mp hc.symm
          rw [show posRem (items i) (TaskPos.buffering k) =
            ((items i).drop k).map WEvent.initApply ++ [WEvent.initDone] from rfl,
            hd, hp0, hr0]
          simp
        · rw [projEvents_cons_ne i j _ _ (fun hji => hij hji.symm)]
          have hc := hchain' i
          rw [hpos2, Function.update_noteq hij] at hc
          exact hc
      | cons c r =>
        rw [hd] at ht
        simp only [List.map_cons, List.cons_append] at ht
        obtain ⟨rfl, hrest⟩ : e = WEvent.initApply c ∧
            projEvents j rest ++ t = r.map WEvent.initApply ++ [WEvent.initDone] :=
          ⟨List.head_eq_of_cons_eq ht, List.tail_eq_of_cons_eq ht⟩
        have hklen : k < (items j).length := by
          by_contra hk
          rw [List.drop_eq_nil_iff.mpr (Nat.le_of_not_lt hk)] at hd
          exact List.noConfusion hd
        obtain ⟨htake, hdrop⟩ := take_drop_step (items j) k c r hd
        rw [runSched_cons, hts j, hpos]
        rw [watchStep_initApply_buffering total _ cs c (by simp [posState])]
        simp only [posState]
        set pos2 : Fin n → TaskPos := Function.update pos j (.buffering (k + 1)) with hpos2
        have hOK2 : ∀ i, posOK (items i) (pos2 i) := by
          intro i
          by_cases hij : i = j
          · subst hij; simp [hpos2, posOK]; omega
          · simpa [hpos2, Function.update_noteq hij] using hOK i
        have hts2 : ∀ i,
            Function.update tss j (⟨(items j).take k ++ [c], true, false⟩ : TaskState) i =
            posState (items i) (pos2 i) := by
          intro i
          by_cases hij : i = j
          · subst hij; simp [hpos2, posState, htake]
          · rw [Function.update_noteq hij, hpos2, Function.update_noteq hij]; exact hts i
        have hpre2 : ∀ i, projEvents i rest <+: posRem (items i) (pos2 i) := by
          intro i
          by_cases hij : i = j
          · subst hij
            simp only [hpos2, Function.update_same, posRem, hdrop]
            exact ⟨t, hrest⟩
          · rw [hpos2, Function.update_noteq hij]
            have := hpre i
            rwa [projEvents_cons_ne i j _ _ (fun hji => hij hji.symm)] at this
        have hinv2 : CoordInv total items pos2 cs := by
          obtain ⟨h1, h2, h3⟩ := hinv
          refine ⟨?_, ?_, h3⟩
          · rw [h1]
            exact (sum_if_update_same pos _ j _ (by simp [hpos, posDone])).symm
          · rw [h2]
            exact (sum_if_update_same pos _ j _ (by simp [hpos, posDone])).symm
        obtain ⟨pos', hOK', hchain', hts', hinv', hout'⟩ :=
          ih pos2 (Function.update tss j ⟨(items j).take k ++ [c], true, false⟩) cs
            (out ++ []) hOK2 hts2 hpre2 hinv2
        refine ⟨pos', hOK', ?_, hts', hinv', by simpa using hout'⟩
        intro i
        by_cases hij : i = j
        · subst hij
          rw [projEvents_cons_self, hpos]
          have hc := hchain' i
          rw [hpos2, Function.update_same] at hc
          rw [show posRem (items i) (TaskPos.buffering (k + 1)) =
            ((items i).drop (k + 1)).map WEvent.initApply ++ [WEvent.initDone] from rfl,
            hdrop] at hc
          rw [show posRem (items i) (TaskPos.buffering k) =
            ((items i).drop k).map WEvent.initApply ++ [WEvent.initDone] from rfl,
            hd]
          simp only [List.map_cons, List.cons_append]
          rw [hc]
        · rw [projEvents_cons_ne i j _ _ (fun hji => hij hji.symm)]
          have hc := hchain' i
          rw [hpos2, Function.update_noteq hij] at hc
          exact hc
    | streaming =>
      rw [hpos] at ht
      simp only [posRem] at ht
      exact absurd ht (by simp)

/-! ### Sort facts -/

lemma prioLe_trans : ∀ (a b c : K8sItem),
    prioLe a b = true → prioLe b c = true → prioLe a c = true := by
  intro a b c
  simp only [prioLe, decide_eq_true_eq]
  omega

lemma prioLe_total : ∀ (a b : K8sItem), (prioLe a b || prioLe b a) = true := by
  intro a b
  simp only [prioLe, Bool.or_eq_true, decide_eq_true_eq]
  omega

lemma sortByPriorityDesc_perm (l : List K8sItem) : (sortByPriorityDesc l).Perm l :=
  List.mergeSort_perm l prioLe

lemma sortByPriorityDesc_sorted (l : List K8sItem) :
    (sortByPriorityDesc l).Pairwise
      (fun a b => status_priority b.status ≤ status_priority a.status) := by
  have h := List.sorted_mergeSort prioLe_trans prioLe_total l
  exact h.imp (fun hab => by simpa [prioLe] using hab)

lemma sortByPriorityDesc_eq_nil_iff (l : List K8sItem) :
    sortByPriorityDesc l = [] ↔ l = [] := by
  constructor
  · intro h
    have hlen := (sortByPriorityDesc_perm l).length_eq
    rw [h] at hlen
    exact List.eq_nil_of_length_eq_zero hlen.symm
  · intro h
    subst h
    simp [sortByPriorityDesc]

lemma sortByPriorityDesc_isEmpty_false (l : List K8sItem) (h : l ≠ []) :
    (sortByPriorityDesc l).isEmpty = false := by
  have hne : sortByPriorityDesc l ≠ [] := fun h0 =>
    h ((sortByPriorityDesc_eq_nil_iff l).mp h0)
  cases he : (sortByPriorityDesc l).isEmpty
  · rfl
  · exact absurd (List.isEmpty_iff.mp he) hne

/-! ### Complete and partial canonical runs -/

/-- After a schedule in which every task delivers its complete
first-connection trace: the shared buffer holds the union of all tasks'
items, every task has been counted, the completion signal has fired
(when there is at least one task), and no direct output was produced. -/
lemma runSched_canonical {n : Nat} (items : Fin n → List K8sItem)
    (sched : List (Fin n × WEvent))
    (hsched : ∀ j, projEvents j sched = canonicalTrace (items j)) :
    ((↑(runSched n sched (fun _ => TaskState.initial) CoordState.initial []).2.1.global_init :
        Multiset K8sItem) = ∑ j : Fin n, (↑(items j) : Multiset K8sItem)) ∧
    (runSched n sched (fun _ => TaskState.initial) CoordState.initial []).2.1.done_count = n ∧
    ((runSched n sched (fun _ => TaskState.initial) CoordState.initial []).2.1.notified = true ↔
      1 ≤ n) ∧
    (runSched n sched (fun _ => TaskState.initial) CoordState.initial []).2.2 = [] := by
  obtain ⟨pos', hOK', hchain', hts', hinv', hout'⟩ :=
    runSched_inv n items sched (fun _ => .start) (fun _ => TaskState.initial)
      CoordState.initial []
      (fun j => trivial)
      (fun j => rfl)
      (fun j => by rw [hsched j]; exact List.prefix_rfl)
      ⟨by simp [CoordState.initial, posDone], by simp [CoordState.initial, posDone],
        by simp [CoordState.initial]⟩
  have hstream : ∀ j, pos' j = TaskPos.streaming := by
    intro j
    have hc := hchain' j
    rw [show posRem (items j) TaskPos.start = canonicalTrace (items j) from rfl,
      hsched j] at hc
    have hrem : posRem (items j) (pos' j) = [] := by
      have hlen := congrArg List.length hc
      rw [List.length_append] at hlen
      exact List.eq_nil_of_length_eq_zero (by omega)
    cases hp : pos' j with
    | start =>
      rw [hp] at hrem
      exact absurd hrem (by simp [posRem, canonicalTrace])
    | buffering k =>
      rw [hp] at hrem
      exact absurd hrem (by simp [posRem])
    | streaming => rfl
  obtain ⟨h1, h2, h3⟩ := hinv'
  have hsum1 : (∑ j : Fin n, if posDone (pos' j) then (↑(items j) : Multiset K8sItem) else 0) =
      ∑ j : Fin n, (↑(items j) : Multiset K8sItem) :=
    Finset.sum_congr rfl (fun j _ => by rw [hstream j]; simp [posDone])
  have hsum2 : (∑ j : Fin n, if posDone (pos' j) then (1 : Nat) else 0) = n := by
    have hone : ∀ j ∈ Finset.univ, (if posDone (pos' j) then (1 : Nat) else 0) = 1 := by
      intro j _
      rw [hstream j]
      simp [posDone]
    rw [Finset.sum_congr rfl hone]
    simp
  refine ⟨by rw [h1, hsum1], by rw [h2, hsum2], ?_, hout'⟩
  rw [h3, h2, hsum2]
  omega

/-- After a schedule whose per-task projections are arbitrary prefixes of
the canonical traces (some tasks may not have completed): the shared
buffer is a sub-multiset of the union of all items and no direct output
was produced. -/
lemma runSched_prefix {n : Nat} (items : Fin n → List K8sItem)
    (sched : List (Fin n × WEvent))
    (hsched : ∀ j, projEvents j sched <+: canonicalTrace (items j)) :
    ((↑(runSched n sched (fun _ => TaskState.initial) CoordState.initial []).2.1.global_init :
        Multiset K8sItem) ≤ ∑ j : Fin n, (↑(items j) : Multiset K8sItem)) ∧
    (runSched n sched (fun _ => TaskState.initial) CoordState.initial []).2.2 = [] := by
  obtain ⟨pos', hOK', hchain', hts', hinv', hout'⟩ :=
    runSched_inv n items sched (fun _ => .start) (fun _ => TaskState.initial)
      CoordState.initial []
      (fun j => trivial)
      (fun j => rfl)
      (fun j => hsched j)
      ⟨by simp [CoordState.initial, posDone], by simp [CoordState.initial, posDone],
        by simp [CoordState.initial]⟩
  obtain ⟨h1, _, _⟩ := hinv'
  refine ⟨?_, hout'⟩
  rw [h1]
  apply Finset.sum_le_sum
  intro j _
  by_cases hd : posDone (pos' j)
  · simp [hd]
  · simp only [hd, if_false]
    exact Multiset.zero_le _

/-- Core canonical-run fact shared by the coordinator claims: a complete
canonical run fires the signal at count `n`, produces no direct output,
and the coordinator then emits exactly one sorted batch carrying the
union of all tasks' initial items. -/
lemma engineRun_canonical_exists {n : Nat} (items : Fin n → List K8sItem)
    (sched : List (Fin n × WEvent))
    (hsched : ∀ j, projEvents j sched = canonicalTrace (items j))
    (hne : ∃ j, items j ≠ []) :
    (engineRun n sched).2.2.done_count = n ∧
    (engineRun n sched).2.2.notified = true ∧
    (engineRun n sched).2.1 = [] ∧
    ∃ batch : List K8sItem,
      (engineRun n sched).1 = [batch] ∧
      (↑batch : Multiset K8sItem) = ∑ j : Fin n, (↑(items j) : Multiset K8sItem) ∧
      batch.Pairwise (fun a b => status_priority b.status ≤ status_priority a.status) := by
  obtain ⟨h1, h2, h3, h4⟩ := runSched_canonical items sched hsched
  obtain ⟨j0, hj0⟩ := hne
  have hpos : 1 ≤ n := j0.pos
  have hbufne :
      (runSched n sched (fun _ => TaskState.initial) CoordState.initial []).2.1.global_init ≠
        [] := by
    intro h0
    rw [h0] at h1
    have hz := (Finset.sum_eq_zero_iff.mp h1.symm) j0 (Finset.mem_univ j0)
    exact hj0 ((Multiset.coe_eq_zero (items j0)).mp hz)
  refine ⟨h2, h3.mpr hpos, h4, sortByPriorityDesc
    (runSched n sched (fun _ => TaskState.initial) CoordState.initial []).2.1.global_init,
    ?_, ?_, sortByPriorityDesc_sorted _⟩
  · show (coordinatorFire _).2 = _
    rw [show ∀ cs : CoordState, (coordinatorFire cs).2 =
      if (sortByPriorityDesc cs.global_init).isEmpty then []
      else [sortByPriorityDesc cs.global_init] from fun cs => rfl]
    rw [sortByPriorityDesc_isEmpty_false _ hbufne]
    rfl
  · rw [Multiset.coe_eq_coe.mpr (sortByPriorityDesc_perm _), h1]

/-- C1: in a run in which all K watched kinds deliver their complete
first listings (completion signalled before the timeout), the coordinator
emits exactly one combined batch — the union of every watcher's buffered
initial items, ordered Healthy first / Critical last (the spec's
"ascending health priority") — and no second global batch, and no other
output, is produced in the run. -/
theorem C1_coordinator_single_sorted_union_batch {n : Nat}
    (items : Fin n → List K8sItem) (sched : List (Fin n × WEvent))
    (hsched : ∀ j, projEvents j sched = canonicalTrace (items j))
    (hne : ∃ j, items j ≠ []) :
    ∃ batch : List K8sItem,
      (engineRun n sched).1 = [batch] ∧
      (↑batch : Multiset K8sItem) = ∑ j : Fin n, (↑(items j) : Multiset K8sItem) ∧
      batch.Pairwise (fun a b => status_priority b.status ≤ status_priority a.status) ∧
      (engineRun n sched).2.1 = [] ∧
      (engineRun n sched).2.2.notified = true := by
  obtain ⟨hcount, hnot, hdirect, batch, hb1, hb2, hb3⟩ :=
    engineRun_canonical_exists items sched hsched hne
  exact ⟨batch, hb1, hb2, hb3, hdirect, hnot⟩

/-- Items used by the concrete witness runs. -/
def itemA : K8sItem :=
  ⟨.Pod, "default".toList, "web-1".toList, "Pending".toList, "5m".toList, []⟩

/-- Second item used by the concrete witness runs. -/
def itemB : K8sItem :=
  ⟨.Pod, "default".toList, "web-2".toList, "CrashLoopBackOff".toList, "1h".toList, []⟩

/-- Initial listings of the two-task witness run. -/
def cItems : Fin 2 → List K8sItem := fun j => if j = 0 then [itemA] else [itemB]

/-- An interleaved complete schedule of the two-task witness run. -/
def cSched : List (Fin 2 × WEvent) :=
  [(0, .init), (1, .init), (0, .initApply itemA), (1, .initApply itemB),
   (0, .initDone), (1, .initDone)]

/-- Witness for C1 at a concrete interleaved two-watcher run. -/
theorem C1_witness :
    (∀ j, projEvents j cSched = canonicalTrace (cItems j)) ∧
    (∃ j, cItems j ≠ []) ∧
    ∃ batch : List K8sItem,
      (engineRun 2 cSched).1 = [batch] ∧
      (↑batch : Multiset K8sItem) = ∑ j : Fin 2, (↑(cItems j) : Multiset K8sItem) ∧
      batch.Pairwise (fun a b => status_priority b.status ≤ status_priority a.status) ∧
      (engineRun 2 cSched).2.1 = [] ∧
      (engineRun 2 cSched).2.2.notified = true :=
  ⟨by decide, by decide,
    C1_coordinator_single_sorted_union_batch cItems cSched (by decide) (by decide)⟩

/-- C3 counterexample: with one watcher that never signals completion
(empty schedule), the coordinator's timeout fires over an empty buffer
and ZERO batches are emitted — not "exactly one batch (possibly empty)"
as the claim states. -/
theorem C3_counterexample_empty_buffer_sends_nothing :
    (engineRun 1 ([] : List (Fin 1 × WEvent))).1 = [] ∧
    (engineRun 1 ([] : List (Fin 1 × WEvent))).1.length ≠ 1 := by
  have h : (engineRun 1 ([] : List (Fin 1 × WEvent))).1 = [] := by
    simp [engineRun, runSched, coordinatorFire, sortByPriorityDesc, CoordState.initial]
  exact ⟨h, by rw [h]; decide⟩

/-- C3 (amended): if fewer than K watchers complete before the deadline,
the coordinator still fires at the deadline (modelled by the timeout arm
of the select, so the wait always ends) and emits AT MOST one batch:
exactly one — a sub-multiset of the initial items, ordered Healthy first —
when the accumulated buffer is nonempty, and none when it is empty. -/
theorem C3_timeout_at_most_one_batch {n : Nat}
    (items : Fin n → List K8sItem) (sched : List (Fin n × WEvent))
    (hsched : ∀ j, projEvents j sched <+: canonicalTrace (items j)) :
    (engineRun n sched).1.length ≤ 1 ∧
    ((engineRun n sched).1 = [] ↔ (engineRun n sched).2.2.global_init = []) ∧
    (∀ batch ∈ (engineRun n sched).1,
      batch ≠ [] ∧
      (↑batch : Multiset K8sItem) ≤ ∑ j : Fin n, (↑(items j) : Multiset K8sItem) ∧
      batch.Pairwise (fun a b => status_priority b.status ≤ status_priority a.status)) ∧
    (engineRun n sched).2.1 = [] := by
  obtain ⟨hle, hout⟩ := runSched_prefix items sched hsched
  set buf :=
    (runSched n sched (fun _ => TaskState.initial) CoordState.initial []).2.1.global_init
    with hbuf
  have hglobal : (engineRun n sched).1 =
      if (sortByPriorityDesc buf).isEmpty then [] else [sortByPriorityDesc buf] := rfl
  have hcoord : (engineRun n sched).2.2.global_init = buf := rfl
  by_cases hnil : buf = []
  · have hemp : (sortByPriorityDesc buf).isEmpty = true := by
      rw [(sortByPriorityDesc_eq_nil_iff buf).mpr hnil]
      rfl
    rw [hglobal, hemp]
    refine ⟨by simp, ?_, by simp, hout⟩
    simp [hcoord, hnil]
  · have hemp := sortByPriorityDesc_isEmpty_false buf hnil
    rw [hglobal, hemp]
    simp only [Bool.false_eq_true, if_false]
    refine ⟨by simp, ?_, ?_, hout⟩
    · simp [hcoord, hnil]
    · intro batch hmem
      rw [List.mem_singleton] at hmem
      subst hmem
      refine ⟨?_, ?_, sortByPriorityDesc_sorted _⟩
      · intro h0
        exact hnil ((sortByPriorityDesc_eq_nil_iff buf).mp h0)
      · rw [Multiset.coe_eq_coe.mpr (sortByPriorityDesc_perm _)]
        exact hle

/-- A partial schedule: task 0 completes its listing, task 1 never
connects. -/
def cSchedPartial : List (Fin 2 × WEvent) :=
  [(0, .init), (0, .initApply itemA), (0, .initDone)]

/-- Witness for the amended C3 at a concrete run in which only one of two
watchers completes before the deadline. -/
theorem C3_witness :
    (∀ j, projEvents j cSchedPartial <+: canonicalTrace (cItems j)) ∧
    ((engineRun 2 cSchedPartial).1.length ≤ 1 ∧
      ((engineRun 2 cSchedPartial).1 = [] ↔
        (engineRun 2 cSchedPartial).2.2.global_init = []) ∧
      (∀ batch ∈ (engineRun 2 cSchedPartial).1,
        batch ≠ [] ∧
        (↑batch : Multiset K8sItem) ≤ ∑ j : Fin 2, (↑(cItems j) : Multiset K8sItem) ∧
        batch.Pairwise (fun a b => status_priority b.status ≤ status_priority a.status)) ∧
      (engineRun 2 cSchedPartial).2.1 = []) :=
  ⟨by decide, C3_timeout_at_most_one_batch cItems cSchedPartial (by decide)⟩

/-- C5: on a subsequent (post-reconnect) `InitDone`, the watch task sorts
its local buffer (Healthy first / Critical last) and sends it directly as
its own single batch, while the coordinator's shared buffer, completed
count and completion signal are left exactly unchanged — the task's step
returns the shared state it was given. -/
theorem C5_reconnect_local_batch_coordinator_unchanged
    (total : Nat) (ts : TaskState) (cs : CoordState)
    (hfirst : ts.first_init_done = true) (hne : ts.init_batch ≠ []) :
    ∃ batch : List K8sItem,
      watchStep total ts cs .initDone = (⟨[], false, true⟩, cs, [batch]) ∧
      batch.Perm ts.init_batch ∧
      batch.Pairwise (fun a b => status_priority b.status ≤ status_priority a.status) := by
  refine ⟨sortByPriorityDesc ts.init_batch, ?_, sortByPriorityDesc_perm _,
    sortByPriorityDesc_sorted _⟩
  have hemp := sortByPriorityDesc_isEmpty_false ts.init_batch hne
  have hsne : sortByPriorityDesc ts.init_batch ≠ [] := fun h0 =>
    hne ((sortByPriorityDesc_eq_nil_iff ts.init_batch).mp h0)
  simp only [watchStep, hfirst, if_true]
  rw [if_neg (by rw [hemp]; exact Bool.false_ne_true)]

/-- Reconnected task state used by the C5 witness. -/
def cReconnectTask : TaskState := ⟨[itemA, itemB], true, true⟩

/-- Witness for C5 at a concrete reconnected task. -/
theorem C5_witness :
    cReconnectTask.first_init_done = true ∧
    cReconnectTask.init_batch ≠ [] ∧
    ∃ batch : List K8sItem,
      watchStep 2 cReconnectTask CoordState.initial .initDone =
        (⟨[], false, true⟩, CoordState.initial, [batch]) ∧
      batch.Perm cReconnectTask.init_batch ∧
      batch.Pairwise (fun a b => status_priority b.status ≤ status_priority a.status) :=
  ⟨rfl, by decide,
    C5_reconnect_local_batch_coordinator_unchanged 2 cReconnectTask CoordState.initial
      rfl (by decide)⟩

/-- Per-context schedules of the two-context run. -/
def cCtxSched : Str → List (Fin 1 × WEvent) := fun c =>
  if c = "alpha".toList then [(0, .init), (0, .initApply itemA), (0, .initDone)]
  else [(0, .init), (0, .initApply itemB), (0, .initDone)]

/-- Per-context initial listings of the two-context run. -/
def cCtxItems : Str → Fin 1 → List K8sItem := fun c _ =>
  if c = "alpha".toList then [itemA] else [itemB]

/-- C4 counterexample: with two contexts and one watched kind,
`run_all_contexts` spawns TWO engine invocations, each constructing its
own coordinator; two global batches are emitted (one per context), not
one batch merging both contexts; and a context's completion signal fires
at post-increment count 1 — the number of kinds in that single-context
invocation — although the number of watched (kind × context) pairs is 2. -/
theorem C4_counterexample_per_context_coordinators :
    (run_all_contexts ["alpha".toList, "beta".toList] 1 cCtxSched).length = 2 ∧
    ((run_all_contexts ["alpha".toList, "beta".toList] 1 cCtxSched).map
      (fun r => r.1)).flatten = [[itemA], [itemB]] ∧
    (engineRun 1 (cCtxSched "alpha".toList)).2.2.notified = true ∧
    (engineRun 1 (cCtxSched "alpha".toList)).2.2.done_count = 1 ∧
    (1 : Nat) ≠ 2 := by
  refine ⟨rfl, ?_, by decide, by decide, by decide⟩
  simp [run_all_contexts, cCtxSched, engineRun, runSched, watchStep, coordinatorFire,
    sortByPriorityDesc, CoordState.initial, TaskState.initial]

/-- C4 (amended): initial-batch coordination is per engine invocation,
i.e. per context: each invocation's completion signal fires when its
post-increment count reaches the number of watched kinds of that
invocation, and in multi-cluster mode one coordinator routine runs per
context, each merging only its own context's first listings into its own
single sorted batch. -/
theorem C4_per_context_coordination {n : Nat}
    (contexts : List Str) (items : Str → Fin n → List K8sItem)
    (sched : Str → List (Fin n × WEvent))
    (hsched : ∀ c ∈ contexts, ∀ j, projEvents j (sched c) = canonicalTrace (items c j))
    (hne : ∀ c ∈ contexts, ∃ j, items c j ≠ []) :
    run_all_contexts contexts n sched = contexts.map (fun c => engineRun n (sched c)) ∧
    (run_all_contexts contexts n sched).length = contexts.length ∧
    ∀ c ∈ contexts,
      (engineRun n (sched c)).2.2.done_count = n ∧
      (engineRun n (sched c)).2.2.notified = true ∧
      ∃ batch : List K8sItem,
        (engineRun n (sched c)).1 = [batch] ∧
        (↑batch : Multiset K8sItem) = ∑ j : Fin n, (↑(items c j) : Multiset K8sItem) ∧
        batch.Pairwise (fun a b => status_priority b.status ≤ status_priority a.status) := by
  refine ⟨rfl, by simp [run_all_contexts], ?_⟩
  intro c hc
  obtain ⟨h1, h2, _, batch, hb1, hb2, hb3⟩ :=
    engineRun_canonical_exists (items c) (sched c) (hsched c hc) (hne c hc)
  exact ⟨h1, h2, batch, hb1, hb2, hb3⟩

/-- Witness for the amended C4 at the concrete two-context run. -/
theorem C4_witness :
    (∀ c ∈ ["alpha".toList, "beta".toList],
      ∀ j, projEvents j (cCtxSched c) = canonicalTrace (cCtxItems c j)) ∧
    (∀ c ∈ ["alpha".toList, "beta".toList], ∃ j, cCtxItems c j ≠ []) ∧
    (run_all_contexts ["alpha".toList, "beta".toList] 1 cCtxSched =
      ["alpha".toList, "beta".toList].map (fun c => engineRun 1 (cCtxSched c)) ∧
    (run_all_contexts ["alpha".toList, "beta".toList] 1 cCtxSched).length = 2 ∧
    ∀ c ∈ ["alpha".toList, "beta".toList],
      (engineRun 1 (cCtxSched c)).2.2.done_count = 1 ∧
      (engineRun 1 (cCtxSched c)).2.2.notified = true ∧
      ∃ batch : List K8sItem,
        (engineRun 1 (cCtxSched c)).1 = [batch] ∧
        (↑batch : Multiset K8sItem) = ∑ j : Fin 1, (↑(cCtxItems c j) : Multiset K8sItem) ∧
        batch.Pairwise (fun a b => status_priority b.status ≤ status_priority a.status)) :=
  ⟨by decide, by decide,
    C4_per_context_coordination ["alpha".toList, "beta".toList] cCtxItems cCtxSched
      (by decide) (by decide)⟩

/-- C2: `classify` is a total pure function into the four tiers, with the
claimed table — `[DELETED]` → Unknown, `Running` → Healthy (priority 2),
`Pending` → Warning (priority 1), `CrashLoopBackOff` → Critical
(priority 0), `3/3` → Healthy, `2/3` → Warning — arbitrary text matching
no rule defaults to Healthy, and `priority` is the pure projection
Critical=0, Warning=1, Unknown=1, Healthy=2. -/
theorem C2_classify_total_with_tier_table :
    (∀ s : Str, ¬ preRatioRule s → '/' ∉ s → StatusHealth.classify s = .Healthy) ∧
    (∀ s : Str, StatusHealth.classify s = .Critical ∨ StatusHealth.classify s = .Warning ∨
      StatusHealth.classify s = .Healthy ∨ StatusHealth.classify s = .Unknown) ∧
    StatusHealth.classify "[DELETED]".toList = .Unknown ∧
    StatusHealth.classify "Running".toList = .Healthy ∧
    (StatusHealth.classify "Running".toList).priority = 2 ∧
    StatusHealth.classify "Pending".toList = .Warning ∧
    (StatusHealth.classify "Pending".toList).priority = 1 ∧
    StatusHealth.classify "CrashLoopBackOff".toList = .Critical ∧
    (StatusHealth.classify "CrashLoopBackOff".toList).priority = 0 ∧
    StatusHealth.classify "3/3".toList = .Healthy ∧
    StatusHealth.classify "2/3".toList = .Warning ∧
    StatusHealth.Critical.priority = 0 ∧ StatusHealth.Warning.priority = 1 ∧
    StatusHealth.Unknown.priority = 1 ∧ StatusHealth.Healthy.priority = 2 := by
  refine ⟨?_, ?_, by decide, by decide, by decide, by decide, by decide, by decide,
    by decide, by decide, by decide, rfl, rfl, rfl, rfl⟩
  · intro s hpre hsl
    have hc1 : ¬ (s = "Failed".toList ∨ s = "Error".toList ∨ s = "OOMKilled".toList ∨
        s = "NotReady".toList ∨ s = "Lost".toList ∨ s = "Evicted".toList ∨
        s = "BackOff".toList) := fun h => hpre (Or.inl h)
    have hc2 : ¬ ("CrashLoop".toList <+: s ∨ "ErrImage".toList <+: s ∨
        "ImagePull".toList <+: s ∨ "Init:Error".toList <+: s ∨
        "Init:ErrImage".toList <+: s ∨ "Init:ImagePull".toList <+: s ∨
        "Failed(".toList <+: s) := fun h => hpre (Or.inr (Or.inl h))
    have hc3 : ¬ (s = "Pending".toList ∨ s = "Terminating".toList ∨
        s = "ContainerCreating".toList ∨ s = "Unknown".toList) :=
      fun h => hpre (Or.inr (Or.inr (Or.inl h)))
    have hc4 : ¬ ("Init:".toList <+: s) :=
      fun h => hpre (Or.inr (Or.inr (Or.inr (Or.inl h))))
    have hc5 : ¬ (s = "[DELETED]".toList) :=
      fun h => hpre (Or.inr (Or.inr (Or.inr (Or.inr (Or.inl h)))))
    have hc6 : ¬ (s = "Running".toList ∨ s = "Active".toList ∨ s = "Bound".toList ∨
        s = "Complete".toList ∨ s = "Succeeded".toList ∨ s = "Ready".toList ∨
        s = "Scheduled".toList ∨ s = "ClusterIP".toList ∨ s = "NodePort".toList ∨
        s = "LoadBalancer".toList) :=
      fun h => hpre (Or.inr (Or.inr (Or.inr (Or.inr (Or.inr (Or.inl h))))))
    have hc7 : ¬ ("Active(".toList <+: s) :=
      fun h => hpre (Or.inr (Or.inr (Or.inr (Or.inr (Or.inr (Or.inr h))))))
    unfold StatusHealth.classify
    rw [if_neg hc1, if_neg hc2, if_neg hc3, if_neg hc4, if_neg hc5, if_neg hc6,
      if_neg hc7, if_neg hsl]
  · intro s
    cases h : StatusHealth.classify s <;> simp

/-- Witness for C2's unrecognized-text default at a concrete status. -/
theorem C2_witness :
    ¬ preRatioRule "SomeUnknownStatus".toList ∧
    '/' ∉ "SomeUnknownStatus".toList ∧
    StatusHealth.classify "SomeUnknownStatus".toList = .Healthy :=
  ⟨by decide, by decide,
    C2_classify_total_with_tier_table.1 "SomeUnknownStatus".toList (by decide) (by decide)⟩

/-- Modelled from the spec: the canonical status string the spec pairs
with each health tier ("CrashLoopBackOff" with Critical, "Pending" with
Warning, "Running" with Healthy, "[DELETED]" with Unknown); the source
defines no tier-to-string function, so these representatives are taken
from the spec's own tier table. -/
def canonicalStatus : StatusHealth → Str
  | .Critical => "CrashLoopBackOff".toList
  | .Warning => "Pending".toList
  | .Healthy => "Running".toList
  | .Unknown => "[DELETED]".toList

/-- C9: reclassifying each tier's canonical status string yields that
same tier. -/
theorem C9_classify_idempotent_on_canonical_strings (h : StatusHealth) :
    StatusHealth.classify (canonicalStatus h) = h := by
  cases h <;> decide

/-- C6 (against the claim of 14 kinds): the `ResourceKind` enumeration of
the source has exactly the 13 listed variants — there is no
PersistentVolume variant, contradicting the claim, the spec, and the
repository's own tests, which assert `ALL_KINDS.len() == 14` with
PersistentVolume present.  The cluster-scoped dispatch for the kinds
that do exist behaves as claimed: Node and Namespace ignore any
configured namespace, while namespaced kinds receive it. -/
theorem C6_thirteen_kinds_and_cluster_scope :
    ALL_KINDS.length = 13 ∧ ALL_KINDS.Nodup ∧
    (∀ k : ResourceKind, k ∈ ALL_KINDS) ∧
    (∀ ns : Option Str, watchNamespaceArg .Node ns = none ∧
      watchNamespaceArg .Namespace ns = none ∧
      watchNamespaceArg .Pod ns = ns ∧
      watchNamespaceArg .PersistentVolumeClaim ns = ns) := by
  refine ⟨by decide, by decide, ?_, ?_⟩
  · intro k
    cases k <;> decide
  · intro ns
    exact ⟨rfl, rfl, rfl, rfl⟩

/-- When no guard before the ratio branch matches and the string contains
a slash, `classify` reaches exactly the ratio rule. -/
lemma classify_of_not_preRatio (s : Str) (hpre : ¬ preRatioRule s) (hsl : '/' ∈ s) :
    StatusHealth.classify s =
      (match splitn2Slash s with
       | [a, b] => if a = b then StatusHealth.Healthy else StatusHealth.Warning
       | _ => StatusHealth.Warning) := by
  have hc1 : ¬ (s = "Failed".toList ∨ s = "Error".toList ∨ s = "OOMKilled".toList ∨
      s = "NotReady".toList ∨ s = "Lost".toList ∨ s = "Evicted".toList ∨
      s = "BackOff".toList) := fun h => hpre (Or.inl h)
  have hc2 : ¬ ("CrashLoop".toList <+: s ∨ "ErrImage".toList <+: s ∨
      "ImagePull".toList <+: s ∨ "Init:Error".toList <+: s ∨
      "Init:ErrImage".toList <+: s ∨ "Init:ImagePull".toList <+: s ∨
      "Failed(".toList <+: s) := fun h => hpre (Or.inr (Or.inl h))
  have hc3 : ¬ (s = "Pending".toList ∨ s = "Terminating".toList ∨
      s = "ContainerCreating".toList ∨ s = "Unknown".toList) :=
    fun h => hpre (Or.inr (Or.inr (Or.inl h)))
  have hc4 : ¬ ("Init:".toList <+: s) :=
    fun h => hpre (Or.inr (Or.inr (Or.inr (Or.inl h))))
  have hc5 : ¬ (s = "[DELETED]".toList) :=
    fun h => hpre (Or.inr (Or.inr (Or.inr (Or.inr (Or.inl h)))))
  have hc6 : ¬ (s = "Running".toList ∨ s = "Active".toList ∨ s = "Bound".toList ∨
      s = "Complete".toList ∨ s = "Succeeded".toList ∨ s = "Ready".toList ∨
      s = "Scheduled".toList ∨ s = "ClusterIP".toList ∨ s = "NodePort".toList ∨
      s = "LoadBalancer".toList) :=
    fun h => hpre (Or.inr (Or.inr (Or.inr (Or.inr (Or.inr (Or.inl h))))))
  have hc7 : ¬ ("Active(".toList <+: s) :=
    fun h => hpre (Or.inr (Or.inr (Or.inr (Or.inr (Or.inr (Or.inr h))))))
  unfold StatusHealth.classify
  rw [if_neg hc1, if_neg hc2, if_neg hc3, if_neg hc4, if_neg hc5, if_neg hc6,
    if_neg hc7, if_pos hsl]

/-- `splitn(2, '/')` on a string written as `a ++ '/' :: b` with `a`
slash-free yields exactly the pieces `a` and `b`. -/
lemma takeWhile_dropWhile_slash (a b : Str) (ha : '/' ∉ a) :
    (a ++ '/' :: b).takeWhile (fun c => c != '/') = a ∧
    ((a ++ '/' :: b).dropWhile (fun c => c != '/')).tail = b := by
  induction a with
  | nil =>
    constructor
    · simp [List.takeWhile_cons]
    · simp [List.dropWhile_cons]
  | cons x xs ihx =>
    have hx : (x != '/') = true := by
      simp only [bne_iff_ne, ne_eq]
      intro h
      exact ha (h ▸ List.mem_cons_self x xs)
    have ha2 : '/' ∉ xs := fun h => ha (List.mem_cons_of_mem x h)
    obtain ⟨h1, h2⟩ := ihx ha2
    constructor
    · simp only [List.cons_append, List.takeWhile_cons, hx, if_true, h1]
    · simp only [List.cons_append, List.dropWhile_cons, hx, if_true, h2]

/-- C8: for any status string of the form "a/b" (`a` the slash-free part
before the first slash) that matches no earlier exact or prefix rule,
`classify` applies the ratio rule: Healthy iff `a` equals `b`, Warning
otherwise. -/
theorem C8_ratio_rule_healthy_iff_equal (s a b : Str)
    (hpre : ¬ preRatioRule s) (hs : s = a ++ '/' :: b) (ha : '/' ∉ a) :
    StatusHealth.classify s =
      (if a = b then StatusHealth.Healthy else StatusHealth.Warning) ∧
    (StatusHealth.classify s = StatusHealth.Healthy ↔ a = b) := by
  have hsl : '/' ∈ s := by
    rw [hs]
    exact List.mem_append_right _ (List.mem_cons_self '/' b)
  obtain ⟨ht, hd⟩ := takeWhile_dropWhile_slash a b ha
  have hsplit : splitn2Slash s = [a, b] := by
    rw [hs, splitn2Slash,
      if_pos (List.mem_append_right _ (List.mem_cons_self '/' b)), ht, hd]
  rw [classify_of_not_preRatio s hpre hsl, hsplit]
  constructor
  · rfl
  · by_cases hab : a = b
    · simp [hab]
    · simp [hab]

/-- Witness for C8 at the concrete ratio string "2/3". -/
theorem C8_witness :
    ¬ preRatioRule "2/3".toList ∧
    "2/3".toList = "2".toList ++ '/' :: "3".toList ∧
    '/' ∉ "2".toList ∧
    StatusHealth.classify "2/3".toList =
      (if "2".toList = "3".toList then StatusHealth.Healthy else StatusHealth.Warning) ∧
    (StatusHealth.classify "2/3".toList = StatusHealth.Healthy ↔
      "2".toList = "3".toList) := by
  have h := C8_ratio_rule_healthy_iff_equal "2/3".toList "2".toList "3".toList
    (by decide) (by decide) (by decide)
  exact ⟨by decide, by decide, by decide, h.1, h.2⟩

/-! ### Truncation safety -/

lemma adjustEnd_le (s : Str) (e : Nat) : adjustEnd s e ≤ e := by
  induction e with
  | zero => exact Nat.le_refl 0
  | succ e ihe =>
    unfold adjustEnd
    by_cases h : is_char_boundary s (e + 1) = true
    · rw [if_pos h]
    · rw [if_neg h]
      exact Nat.le_trans ihe (Nat.le_succ e)

lemma is_char_boundary_zero (s : Str) : is_char_boundary s 0 = true := by
  cases s <;> rfl

lemma adjustEnd_boundary (s : Str) (e : Nat) :
    is_char_boundary s (adjustEnd s e) = true := by
  induction e with
  | zero => exact is_char_boundary_zero s
  | succ e ihe =>
    unfold adjustEnd
    by_cases h : is_char_boundary s (e + 1) = true
    · rw [if_pos h]
      exact h
    · rw [if_neg h]
      exact ihe

lemma sliceTo_of_boundary : ∀ (s : Str) (i : Nat), is_char_boundary s i = true →
    ∃ p : Str, sliceTo s i = some p ∧ p <+: s ∧ utf8Len p = i := by
  intro s
  induction s with
  | nil =>
    intro i hb
    cases i with
    | zero => exact ⟨[], rfl, List.nil_prefix, rfl⟩
    | succ i => exact absurd hb (by simp [is_char_boundary])
  | cons c rest ihr =>
    intro i hb
    cases i with
    | zero => exact ⟨[], rfl, List.nil_prefix, rfl⟩
    | succ i =>
      unfold is_char_boundary at hb
      by_cases hsz : c.utf8Size ≤ i + 1
      · rw [if_pos hsz] at hb
        obtain ⟨p, hp1, hp2, hp3⟩ := ihr (i + 1 - c.utf8Size) hb
        refine ⟨c :: p, ?_, List.cons_prefix_cons.mpr ⟨rfl, hp2⟩, ?_⟩
        · simp [sliceTo, hsz, hp1]
        · have hcp : utf8Len (c :: p) = c.utf8Size + utf8Len p := by simp [utf8Len]
          rw [hcp, hp3]
          omega
      · rw [if_neg hsz] at hb
        exact absurd hb (by simp)

/-- C10: `truncate_name` is total and UTF-8-safe: it never panics (the
fallible slice always succeeds), returns the input unchanged when its
byte length is within the limit, and otherwise returns a prefix cut at a
valid char boundary at or below the limit with `…` appended — even when
the byte limit falls inside a multi-byte character. -/
theorem C10_truncate_name_total_utf8_safe (name : Str) (max_chars : Nat) :
    (truncate_name name max_chars).isSome = true ∧
    (utf8Len name ≤ max_chars → truncate_name name max_chars = some name) ∧
    (max_chars < utf8Len name →
      ∃ p : Str, truncate_name name max_chars = some (p ++ [ '…' ]) ∧
        p <+: name ∧ utf8Len p ≤ max_chars ∧
        is_char_boundary name (utf8Len p) = true) := by
  by_cases hle : utf8Len name ≤ max_chars
  · have heq : truncate_name name max_chars = some name := by
      unfold truncate_name
      rw [if_pos hle]
    exact ⟨by rw [heq]; rfl, fun _ => heq,
      fun hlt => absurd hle (Nat.not_le_of_lt hlt)⟩
  · obtain ⟨p, hp1, hp2, hp3⟩ :=
      sliceTo_of_boundary name (adjustEnd name max_chars)
        (adjustEnd_boundary name max_chars)
    have heq : truncate_name name max_chars = some (p ++ [ '…' ]) := by
      unfold truncate_name
      rw [if_neg hle, hp1]
      rfl
    refine ⟨by rw [heq]; rfl, fun h => absurd h hle, fun _ => ⟨p, heq, hp2, ?_, ?_⟩⟩
    · rw [hp3]
      exact adjustEnd_le name max_chars
    · rw [hp3]
      exact adjustEnd_boundary name max_chars

/-- Witness for C10 at a name whose byte limit falls inside the two-byte
character é. -/
theorem C10_witness :
    2 < utf8Len "aé".toList ∧
    ∃ p : Str, truncate_name "aé".toList 2 = some (p ++ [ '…' ]) ∧
      p <+: "aé".toList ∧ utf8Len p ≤ 2 ∧
      is_char_boundary "aé".toList (utf8Len p) = true :=
  ⟨by decide, (C10_truncate_name_total_utf8_safe "aé".toList 2).2.2 (by decide)⟩

/-! ### Pod extractor: loop/spec equivalences -/

/-- One step of the container loop equals the claim's per-container rule:
the container's waiting rule, else its terminated rule, else the next
container. -/
lemma containerScan_cons (cs : ContainerStatus) (rest : List ContainerStatus) :
    containerScan (cs :: rest) =
      (match (waitingRuleSpec cs).orElse (fun _ => terminatedRuleSpec cs) with
       | some r => some r
       | none => containerScan rest) := by
  obtain ⟨st⟩ := cs
  cases st with
  | none => rfl
  | some st0 =>
    obtain ⟨w, t⟩ := st0
    cases w with
    | none =>
      cases t with
      | none => rfl
      | some tt =>
        by_cases hex : tt.exit_code ≠ 0
        · rw [show containerScan (⟨some ⟨none, some tt⟩⟩ :: rest) =
            (if tt.exit_code ≠ 0 then some (tt.reason.getD "Error".toList)
             else containerScan rest) from rfl]
          rw [show waitingRuleSpec ⟨some ⟨none, some tt⟩⟩ = none from rfl]
          rw [show terminatedRuleSpec ⟨some ⟨none, some tt⟩⟩ =
            (if tt.exit_code ≠ 0 then some (tt.reason.getD "Error".toList) else none)
            from rfl]
          rw [if_pos hex, if_pos hex]
          rfl
        · rw [show containerScan (⟨some ⟨none, some tt⟩⟩ :: rest) =
            (if tt.exit_code ≠ 0 then some (tt.reason.getD "Error".toList)
             else containerScan rest) from rfl]
          rw [show waitingRuleSpec ⟨some ⟨none, some tt⟩⟩ = none from rfl]
          rw [show terminatedRuleSpec ⟨some ⟨none, some tt⟩⟩ =
            (if tt.exit_code ≠ 0 then some (tt.reason.getD "Error".toList) else none)
            from rfl]
          rw [if_neg hex, if_neg hex]
          rfl
    | some w0 =>
      obtain ⟨reason⟩ := w0
      cases reason with
      | none =>
        cases t with
        | none => rfl
        | some tt =>
          by_cases hex : tt.exit_code ≠ 0
          · rw [show containerScan (⟨some ⟨some ⟨none⟩, some tt⟩⟩ :: rest) =
              (if tt.exit_code ≠ 0 then some (tt.reason.getD "Error".toList)
               else containerScan rest) from rfl]
            rw [show waitingRuleSpec ⟨some ⟨some ⟨none⟩, some tt⟩⟩ = none from rfl]
            rw [show terminatedRuleSpec ⟨some ⟨some ⟨none⟩, some tt⟩⟩ =
              (if tt.exit_code ≠ 0 then some (tt.reason.getD "Error".toList) else none)
              from rfl]
            rw [if_pos hex, if_pos hex]
            rfl
          · rw [show containerScan (⟨some ⟨some ⟨none⟩, some tt⟩⟩ :: rest) =
              (if tt.exit_code ≠ 0 then some (tt.reason.getD "Error".toList)
               else containerScan rest) from rfl]
            rw [show waitingRuleSpec ⟨some ⟨some ⟨none⟩, some tt⟩⟩ = none from rfl]
            rw [show terminatedRuleSpec ⟨some ⟨some ⟨none⟩, some tt⟩⟩ =
              (if tt.exit_code ≠ 0 then some (tt.reason.getD "Error".toList) else none)
              from rfl]
            rw [if_neg hex, if_neg hex]
            rfl
      | some r0 =>
        cases t with
        | none =>
          by_cases hcc : r0 ≠ "ContainerCreating".toList ∧ r0 ≠ "PodInitializing".toList
          · rw [show containerScan (⟨some ⟨some ⟨some r0⟩, none⟩⟩ :: rest) =
              (match
                (if r0 ≠ "ContainerCreating".toList ∧ r0 ≠ "PodInitializing".toList
                 then some r0 else none) with
               | some r => some r
               | none => containerScan rest) from rfl,
              show waitingRuleSpec ⟨some ⟨some ⟨some r0⟩, none⟩⟩ =
                (if r0 ≠ "ContainerCreating".toList ∧ r0 ≠ "PodInitializing".toList
                 then some r0 else none) from rfl,
              if_pos hcc]
            rfl
          · rw [show containerScan (⟨some ⟨some ⟨some r0⟩, none⟩⟩ :: rest) =
              (match
                (if r0 ≠ "ContainerCreating".toList ∧ r0 ≠ "PodInitializing".toList
                 then some r0 else none) with
               | some r => some r
               | none => containerScan rest) from rfl,
              show waitingRuleSpec ⟨some ⟨some ⟨some r0⟩, none⟩⟩ =
                (if r0 ≠ "ContainerCreating".toList ∧ r0 ≠ "PodInitializing".toList
                 then some r0 else none) from rfl,
              if_neg hcc]
            rfl
        | some tt =>
          by_cases hcc : r0 ≠ "ContainerCreating".toList ∧ r0 ≠ "PodInitializing".toList
          · rw [show containerScan (⟨some ⟨some ⟨some r0⟩, some tt⟩⟩ :: rest) =
              (match
                (if r0 ≠ "ContainerCreating".toList ∧ r0 ≠ "PodInitializing".toList
                 then some r0 else none) with
               | some r => some r
               | none =>
                 if tt.exit_code ≠ 0 then some (tt.reason.getD "Error".toList)
                 else containerScan rest) from rfl,
              show waitingRuleSpec ⟨some ⟨some ⟨some r0⟩, some tt⟩⟩ =
                (if r0 ≠ "ContainerCreating".toList ∧ r0 ≠ "PodInitializing".toList
                 then some r0 else none) from rfl,
              if_pos hcc]
            rfl
          · rw [show containerScan (⟨some ⟨some ⟨some r0⟩, some tt⟩⟩ :: rest) =
              (match
                (if r0 ≠ "ContainerCreating".toList ∧ r0 ≠ "PodInitializing".toList
                 then some r0 else none) with
               | some r => some r
               | none =>
                 if tt.exit_code ≠ 0 then some (tt.reason.getD "Error".toList)
                 else containerScan rest) from rfl,
              show waitingRuleSpec ⟨some ⟨some ⟨some r0⟩, some tt⟩⟩ =
                (if r0 ≠ "ContainerCreating".toList ∧ r0 ≠ "PodInitializing".toList
                 then some r0 else none) from rfl,
              if_neg hcc,
              show terminatedRuleSpec ⟨some ⟨some ⟨some r0⟩, some tt⟩⟩ =
                (if tt.exit_code ≠ 0 then some (tt.reason.getD "Error".toList) else none)
                from rfl,
              show (none : Option Str).orElse
                  (fun _ => if tt.exit_code ≠ 0 then some (tt.reason.getD "Error".toList)
                    else none) =
                (if tt.exit_code ≠ 0 then some (tt.reason.getD "Error".toList) else none)
                from rfl]
            by_cases hex : tt.exit_code ≠ 0
            · rw [if_pos hex, if_pos hex]
            · rw [if_neg hex, if_neg hex]

lemma containerScan_eq_findSome (css : List ContainerStatus) :
    containerScan css =
      css.findSome? (fun cs => (waitingRuleSpec cs).orElse fun _ => terminatedRuleSpec cs) := by
  induction css with
  | nil => rfl
  | cons cs rest ihr =>
    rw [containerScan_cons, List.findSome?_cons, ihr]
    cases hval : (waitingRuleSpec cs).orElse fun _ => terminatedRuleSpec cs <;> rfl

/-- One step of the init-container waiting loop equals the claim's rule. -/
lemma initWaitingScan_cons (cs : ContainerStatus) (rest : List ContainerStatus) :
    initWaitingScan (cs :: rest) =
      (match initWaitingRuleSpec cs with
       | some r => some r
       | none => initWaitingScan rest) := by
  obtain ⟨st⟩ := cs
  cases st with
  | none => rfl
  | some st0 =>
    obtain ⟨w, t⟩ := st0
    cases w with
    | none => rfl
    | some w0 =>
      obtain ⟨reason⟩ := w0
      cases reason with
      | none => rfl
      | some r0 => rfl

lemma initWaitingScan_eq_findSome (ics : List ContainerStatus) :
    initWaitingScan ics = ics.findSome? initWaitingRuleSpec := by
  induction ics with
  | nil => rfl
  | cons cs rest ihr =>
    rw [initWaitingScan_cons, List.findSome?_cons, ihr]
    cases hval : initWaitingRuleSpec cs <;> rfl

lemma initDoneCount_eq_spec (ics : List ContainerStatus) :
    initDoneCount ics = initDoneCountSpec ics := by
  rw [initDoneCountSpec, List.countP_eq_length_filter, initDoneCount]
  congr 1
  apply List.filter_congr
  intro cs _
  obtain ⟨st⟩ := cs
  cases st with
  | none => rfl
  | some st0 =>
    obtain ⟨w, t⟩ := st0
    cases t with
    | none => rfl
    | some tt => rfl

lemma initClauseCode_eq_spec (ics : Option (List ContainerStatus)) :
    initClauseCode ics = initClauseSpec ics := by
  cases ics with
  | none => rfl
  | some l =>
    rw [show initClauseCode (some l) =
      (match initWaitingScan l with
       | some r => some r
       | none =>
         if initDoneCount l < l.length then
           some ("Init:".toList ++ natStr (initDoneCount l) ++ "/".toList ++
             natStr l.length)
         else none) from rfl]
    rw [initWaitingScan_eq_findSome, initDoneCount_eq_spec]
    rw [show initClauseSpec (some l) =
      ((l.findSome? initWaitingRuleSpec).orElse fun _ =>
        if initDoneCountSpec l < l.length then
          some ("Init:".toList ++ natStr (initDoneCountSpec l) ++ "/".toList ++
            natStr l.length)
        else none) from rfl]
    cases hfs : l.findSome? initWaitingRuleSpec with
    | some r => rfl
    | none => rfl

lemma containerClauseCode_eq_spec (css : Option (List ContainerStatus)) :
    containerClauseCode css =
      (css.getD []).findSome?
        (fun cs => (waitingRuleSpec cs).orElse fun _ => terminatedRuleSpec cs) := by
  cases css with
  | none => rfl
  | some l => exact containerScan_eq_findSome l

/-- C7 (amended): `pod_status` equals the claim-structured extractor in
which the checks run container by container in order — each container's
waiting reason other than ContainerCreating/PodInitializing verbatim,
else that same container's terminated state with nonzero exit code as
its reason or "Error", first hit winning — then the init-container
waiting rule as "Init:reason", then "Init:done/total" while done<total,
then the pod's phase or "Unknown"; with "Terminating" unconditionally
first when a deletion timestamp is set. -/
theorem C7_pod_status_per_container_rule_order (pod : Pod) :
    pod_status pod = pod_status_spec pod := by
  obtain ⟨del, status⟩ := pod
  cases del with
  | some u => rfl
  | none =>
    cases status with
    | none => rfl
    | some st =>
      obtain ⟨css, ics, phase⟩ := st
      rw [show pod_status ⟨none, some ⟨css, ics, phase⟩⟩ =
        (match containerClauseCode css with
         | some r => r
         | none =>
           match initClauseCode ics with
           | some r => r
           | none => phase.getD "Unknown".toList) from rfl]
      rw [show pod_status_spec ⟨none, some ⟨css, ics, phase⟩⟩ =
        ((((css.getD []).findSome?
              fun cs => (waitingRuleSpec cs).orElse fun _ => terminatedRuleSpec cs).orElse
            fun _ => initClauseSpec ics).getD
          (phase.getD "Unknown".toList)) from rfl]
      rw [← containerClauseCode_eq_spec, ← initClauseCode_eq_spec]
      cases hc : containerClauseCode css with
      | some r => rfl
      | none =>
        cases hi : initClauseCode ics with
        | some r => rfl
        | none => rfl

/-- The pod that separates the source's per-container ordering from the
claim's all-waiting-before-any-terminated ordering: container 1
terminated with exit code 1 and reason OOMKilled, container 2 waiting
with reason CrashLoopBackOff. -/
def cexPod : Pod :=
  ⟨none,
    some
      ⟨some
        [⟨some ⟨none, some ⟨1, some "OOMKilled".toList⟩⟩⟩,
         ⟨some ⟨some ⟨some "CrashLoopBackOff".toList⟩, none⟩⟩],
        none, some "Running".toList⟩⟩

/-- C7 counterexample: on `cexPod` the source returns the FIRST
container's terminated reason "OOMKilled", while the claim as written —
any waiting reason is returned before any terminated reason — yields
"CrashLoopBackOff". -/
theorem C7_counterexample_waiting_not_global :
    pod_status cexPod = "OOMKilled".toList ∧
    pod_status_claim cexPod = "CrashLoopBackOff".toList ∧
    pod_status cexPod ≠ pod_status_claim cexPod := by
  refine ⟨rfl, rfl, ?_⟩
  decide
